import Mathlib

/-!
# GAPress: the fitness evaluator and the population initializer of `main.go`

A shallow embedding of `Initializer.InitPop`, `Fitness.score` and the stopping
predicate that `main` hands to `OptimizeUntil`, followed by the properties
established about them.

Conventions of the embedding.

* Go's `int` is the 64-bit two's complement integer of the amd64/arm64
  targets.  A value of type `int` is an `Int` in `[-2^63, 2^63)` and every
  arithmetic result on `int` goes through `wrapInt`.
* Go's `uint8`/`byte` is `Fin 256`.
* A slice is a `List`; `make`, `copy` and indexed assignment are the list
  functions `makeBytes`, `copySlice` and `List.set`.
* A run-time panic is the error side of `Except GoPanic`.
* The `float64` values that occur are integers.  Such a value is
  represented by the integer it denotes, and conversion and multiplication
  round to the nearest representable value, ties to even (`f64Round`).
* The compressor `compress.Mark1Compress16` belongs to another package; it
  is a parameter `comp : List Byte → List Byte` giving the bytes written to
  the output buffer.
-/

namespace GAPress

/-! ## Machine values -/

/-- Go `uint8`. -/
abbrev Byte := Fin 256

/-- Result of an `int` operation whose exact value is `x`: reduction to the
64-bit two's complement range `[-2^63, 2^63)`. -/
def wrapInt (x : Int) : Int :=
  (x + 9223372036854775808) % 18446744073709551616 - 9223372036854775808

/-- The conversion `uint8(x)` of an `int`: the low eight bits. -/
def toUint8 (x : Int) : Byte :=
  ⟨(x % 256).toNat, by omega⟩

/-- The conversion `int(b)` of a `uint8`. -/
def ofUint8 (b : Byte) : Int := (b.val : Int)

/-- The run-time panics the embedded code can raise. -/
inductive GoPanic where
  | indexOutOfRange
  | makesliceLenOutOfRange
  deriving DecidableEq, Repr

deriving instance DecidableEq for Except

/-! ## float64 on integer values -/

/-- Number of low bits dropped when the natural number `n` is stored with a
53-bit significand: the least `e` with `n / 2^e < 2^53` (first argument:
an upper bound on the number of halvings). -/
def f64Shift : Nat → Nat → Nat
  | 0, _ => 0
  | fuel + 1, n => if n < 9007199254740992 then 0 else 1 + f64Shift fuel (n / 2)

/-- Rounding of a natural number to the nearest float64, ties to even.
Values below `2^53` are exact.  (Overflow to `+Inf` needs a value of at
least `2^1024 - 2^970`, far above any product of two slice lengths.) -/
def f64Round (n : Nat) : Nat :=
  let e := f64Shift n n
  let q := n / 2 ^ e
  let r := n % 2 ^ e
  if 2 * r < 2 ^ e then q * 2 ^ e
  else if 2 ^ e < 2 * r then (q + 1) * 2 ^ e
  else if q % 2 = 0 then q * 2 ^ e
  else (q + 1) * 2 ^ e

/-- Rounding of an integer to the nearest float64 (sign and magnitude). -/
def f64RoundInt (x : Int) : Int :=
  if x < 0 then -((f64Round x.natAbs : Nat) : Int) else ((f64Round x.natAbs : Nat) : Int)

/-- The conversion `float64(n)` of an `int`. -/
def float64OfInt (n : Int) : Int := f64RoundInt n

/-- The product `a * b` of two integer-valued float64 values: the exact
product, rounded. -/
def float64Mul (a b : Int) : Int := f64RoundInt (a * b)

/-! ## Slices -/

/-- The allocation `make([]byte, n)`: `n` zero bytes. -/
def makeBytes (n : Nat) : List Byte := List.replicate n 0

/-- The built-in `copy(dst, src)`: the first `min (len dst) (len src)`
elements of `dst` are overwritten with those of `src`. -/
def copySlice {α : Type} (dst src : List α) : List α :=
  src.take dst.length ++ dst.drop src.length

/-! ## Data model -/

/-- The part of `image.Gray` the program reads: the pixel bytes `Pix`. -/
structure Gray where
  Pix : List Byte
  deriving DecidableEq, Repr

/-- The evaluator `Fitness`: the call counter and the reference image
(`main` sets `img` before the first call, so it is never nil). -/
structure Fitness where
  scores : Int
  img : Gray
  deriving DecidableEq, Repr

/-- The part of `ga.GAIntGenome` the program reads: the gene slice. -/
structure GAIntGenome where
  Gene : List Int
  deriving DecidableEq, Repr

/-! ## `Initializer.InitPop` -/

/-- The loop `for x := 0; x < popsize; x++ { pop[x] = first.Copy() }`
started at index `x` with `n` iterations left.  An entry of `pop` is `none`
while it still holds the nil interface value that `make` put there. -/
def initPopLoop {G : Type} (copy : G → G) (first : G) :
    Nat → Nat → List (Option G) → Except GoPanic (List (Option G))
  | 0, _, pop => .ok pop
  | n + 1, x, pop =>
    if x < pop.length then initPopLoop copy first n (x + 1) (pop.set x (some (copy first)))
    else .error .indexOutOfRange

/-- Size in bytes of one slice element of interface type (`ga.GAGenome`):
two machine words. -/
def interfaceSize : Int := 16

/-- The run-time constant `maxAlloc` of the 64-bit targets with 48-bit heap
addresses (linux/amd64, linux/arm64): `2^48`. -/
def maxAlloc : Int := 281474976710656

/-- The allocation `make([]ga.GAGenome, popsize)`.  The run-time function
`makeslice` panics with "len out of range" when the length is negative or
the size `interfaceSize * popsize` exceeds `maxAlloc` (an overflow of the
product in `uintptr` is such an excess); otherwise the slice holds `popsize`
nil interface values.  (A failure of the allocator itself for want of memory
is a fatal error of the process, not a panic, and outside the embedding.) -/
def makeGenomes {G : Type} (popsize : Int) : Except GoPanic (List (Option G)) :=
  if popsize < 0 ∨ maxAlloc < interfaceSize * popsize then .error .makesliceLenOutOfRange
  else .ok (List.replicate popsize.toNat none)

/-- `Initializer.InitPop(first, popsize)`.  The genome type `G` and its
method `Copy` come from the GA library and are parameters; `first` is a
non-nil genome and `popsize` a Go `int`. -/
def InitPop {G : Type} (copy : G → G) (first : G) (popsize : Int) :
    Except GoPanic (List (Option G)) :=
  match makeGenomes popsize with
  | .error e => .error e
  | .ok pop => initPopLoop copy first popsize.toNat 0 pop

/-! ## `Fitness.score` -/

/-- The first loop of `score`: `for _, c := range g.Gene { total += c }`. -/
def sumGenes (gene : List Int) : Int :=
  gene.foldl (fun total c => wrapInt (total + c)) 0

/-- The clamp of `score`:
`if pix > 255 { pix = 255 } else if pix < 0 { pix = 0 }`. -/
def clampPix (pix : Int) : Int :=
  if pix > 255 then 255 else if pix < 0 then 0 else pix

/-- The loop `for i, pixel := range pixels { ... pixels[i] = uint8(pix) }`
of `score`, started at index `i` with `n` iterations left.  Reading
`g.Gene[i]` past the end of the gene slice panics. -/
def perturbLoop (gene : List Int) : Nat → Nat → List Byte → Except GoPanic (List Byte)
  | 0, _, pixels => .ok pixels
  | n + 1, i, pixels =>
    match pixels[i]? with
    | none => .error .indexOutOfRange
    | some pixel =>
      match gene[i]? with
      | none => .error .indexOutOfRange
      | some c =>
        let pix := wrapInt (ofUint8 pixel + c)
        let pix := clampPix pix
        perturbLoop gene n (i + 1) (pixels.set i (toUint8 pix))

/-- Lines 70-80 of `score`: a private copy of the reference pixels with the
genes added and clamped. -/
def perturb (ref : List Byte) (gene : List Int) : Except GoPanic (List Byte) :=
  let pixels := makeBytes ref.length
  let pixels := copySlice pixels ref
  perturbLoop gene pixels.length 0 pixels

/-- What a call of `score` leaves behind: the evaluator and the genome
reached through the two pointers, and the returned float64. -/
structure ScoreResult where
  fit : Fitness
  genome : GAIntGenome
  fitness : Int
  deriving DecidableEq, Repr

/-- `Fitness.score(g)`. -/
def Fitness.score (comp : List Byte → List Byte) (f : Fitness) (g : GAIntGenome) :
    Except GoPanic ScoreResult :=
  let total := sumGenes g.Gene
  let f := { f with scores := wrapInt (f.scores + 1) }
  let total := if total < 0 then wrapInt (-total) else total
  match perturb f.img.Pix g.Gene with
  | .error e => .error e
  | .ok pixels =>
    let output := comp pixels
    let _ := total
    let fitness := float64OfInt (output.length : Int)
    .ok { fit := f, genome := g, fitness := float64Mul fitness fitness }

/-- A run of calls `score(g)` on the same evaluator, one genome after the
other, each call starting from the evaluator the previous one left. -/
def evalAll (comp : List Byte → List Byte) (f : Fitness) :
    List GAIntGenome → Except GoPanic Fitness
  | [] => .ok f
  | g :: gs =>
    match f.score comp g with
    | .error e => .error e
    | .ok r => evalAll comp r.fit gs

/-! ## The stopping predicate of `main` -/

/-- The loop `for i, pixel := range pixels { ... pixels[i] = uint8(pix) }`
inside the stopping predicate (lines 155-163), started at index `i` with `n`
iterations left. -/
def stopLoop (gene : List Int) : Nat → Nat → List Byte → Except GoPanic (List Byte)
  | 0, _, pixels => .ok pixels
  | n + 1, i, pixels =>
    match pixels[i]? with
    | none => .error .indexOutOfRange
    | some pixel =>
      match gene[i]? with
      | none => .error .indexOutOfRange
      | some c =>
        let pix := wrapInt (ofUint8 pixel + c)
        let pix := if pix > 255 then 255 else if pix < 0 then 0 else pix
        stopLoop gene n (i + 1) (pixels.set i (toUint8 pix))

/-- Lines 153-163: the buffer the stopping predicate builds from the best
genome. -/
def stopPixels (ref : List Byte) (gene : List Int) : Except GoPanic (List Byte) :=
  let pixels := makeBytes ref.length
  let pixels := copySlice pixels ref
  stopLoop gene pixels.length 0 pixels

/-- What one call of the stopping predicate produces: the two float64
operands of the ratio it prints and the boolean it returns. -/
structure StopResult where
  printedNum : Int
  printedDen : Int
  stop : Bool
  deriving DecidableEq, Repr

/-- The function literal passed to `OptimizeUntil` (lines 152-168).  `fit`
and `inputSize` are the captured variables; `best` is the genome behind the
interface value (every genome of the run is a `*ga.GAIntGenome`); `Score` is
the library method `best.Score()`, a parameter. -/
def stopPredicate (comp : List Byte → List Byte) (fit : Fitness) (inputSize : Int)
    (Score : GAIntGenome → Int) (best : GAIntGenome) : Except GoPanic StopResult :=
  match stopPixels fit.img.Pix best.Gene with
  | .error e => .error e
  | .ok pixels =>
    let output := comp pixels
    .ok { printedNum := float64OfInt (output.length : Int),
          printedDen := float64OfInt inputSize,
          stop := decide (Score best = 0) }

/-- Modelled from the spec: the library loop `OptimizeUntil` (`runUntil` of
section 4.6) is not part of the sources.  It "repeats the generation cycle
... and calls `stopPredicate(bestGenome)` after each generation; terminates
when the predicate returns true".  The search state `S` and the generation
cycle are parameters; the first argument bounds the number of generations,
and `none` means the loop is still running when the bound is reached. -/
def OptimizeUntil {S : Type} (generation : S → S) (stop : S → Except GoPanic Bool) :
    Nat → S → Option (Except GoPanic S)
  | 0, _ => none
  | fuel + 1, s =>
    match stop (generation s) with
    | .error e => some (.error e)
    | .ok true => some (.ok (generation s))
    | .ok false => OptimizeUntil generation stop fuel (generation s)

/-- Modelled from the spec: the library method `GAIntGenome.Copy` is not part
of the sources; `copy()` "returns a genome with identical gene values":
a fresh gene slice filled from the original. -/
def GAIntGenome.Copy (g : GAIntGenome) : GAIntGenome :=
  { Gene := copySlice (List.replicate g.Gene.length 0) g.Gene }

/-! ## The specification's description of the perturbed buffer -/

/-- The spec's `clamp(x, 0, 255)` on mathematical integers; the result is a
byte. -/
def specClamp (x : Int) : Byte :=
  ⟨(max 0 (min x 255)).toNat, by omega⟩

/-- The spec's perturbed buffer: `p[i] = clamp(ref[i] + g[i], 0, 255)`, the
sum taken in exact integer arithmetic. -/
def specBuffer (ref : List Byte) (gene : List Int) : List Byte :=
  List.zipWith (fun r c => specClamp ((r.val : Int) + c)) ref gene

/-- A compressor that drops every zero byte (used at concrete inputs). -/
def dropZeros (p : List Byte) : List Byte := p.filter (fun b => decide (b ≠ 0))

/-- A compressor whose output is `n` zero bytes whatever the input (used at
concrete inputs). -/
def constOutput (n : Nat) (_ : List Byte) : List Byte := List.replicate n 0

/-- A compressor that emits a one-byte header before the input (used at
concrete inputs). -/
def withHeader (p : List Byte) : List Byte := 0 :: p

/-- The all-zero genome `ga.NewIntGenome(make([]int, n), ...)` of `main`. -/
def zeroGenome (n : Nat) : GAIntGenome := { Gene := List.replicate n 0 }

/-- The value `best.Score()` of the genome library for the evaluator `fit`:
the fitness `score` computes (used at concrete inputs). -/
def scoreOf (comp : List Byte → List Byte) (fit : Fitness) (g : GAIntGenome) : Int :=
  match fit.score comp g with
  | .ok r => r.fitness
  | .error _ => 0

/-! ## Auxiliary lemmas -/

/-- The per-pixel function computed by both loops. -/
def perturbPixel (pixel : Byte) (c : Int) : Byte :=
  toUint8 (clampPix (wrapInt (ofUint8 pixel + c)))

theorem copySlice_make (ref : List Byte) :
    copySlice (makeBytes ref.length) ref = ref := by
  simp [copySlice, makeBytes]

theorem wrapInt_of_inRange (x : Int) (h1 : -9223372036854775808 ≤ x)
    (h2 : x < 9223372036854775808) : wrapInt x = x := by
  unfold wrapInt
  omega

theorem clampPix_bounds (x : Int) : 0 ≤ clampPix x ∧ clampPix x ≤ 255 := by
  unfold clampPix
  split_ifs <;> omega

theorem ofUint8_toUint8_clampPix (x : Int) : ofUint8 (toUint8 (clampPix x)) = clampPix x := by
  have h := clampPix_bounds x
  simp only [ofUint8, toUint8]
  omega

theorem toUint8_clampPix_eq_specClamp (x : Int) : toUint8 (clampPix x) = specClamp x := by
  have h := clampPix_bounds x
  apply Fin.ext
  simp only [toUint8, specClamp]
  unfold clampPix at *
  split_ifs at * <;> omega

theorem perturbPixel_eq_specClamp (r : Byte) (c : Int) (h1 : -9223372036854775808 ≤ c)
    (h2 : (r.val : Int) + c < 9223372036854775808) :
    perturbPixel r c = specClamp ((r.val : Int) + c) := by
  have hr := r.isLt
  unfold perturbPixel
  rw [ofUint8, wrapInt_of_inRange _ (by omega) h2, toUint8_clampPix_eq_specClamp]

theorem zipWith_perturbPixel_eq_specBuffer (ref : List Byte) (gene : List Int)
    (h : ∀ rc ∈ List.zip ref gene,
      -9223372036854775808 ≤ rc.2 ∧ (rc.1.val : Int) + rc.2 < 9223372036854775808) :
    List.zipWith perturbPixel ref gene = specBuffer ref gene := by
  induction ref generalizing gene with
  | nil => simp [specBuffer]
  | cons r rs ih =>
    cases gene with
    | nil => simp [specBuffer]
    | cons c cs =>
      have hh := h (r, c) (by simp)
      have ht : ∀ rc ∈ List.zip rs cs,
          -9223372036854775808 ≤ rc.2 ∧ (rc.1.val : Int) + rc.2 < 9223372036854775808 := by
        intro rc hrc
        exact h rc (by simp [hrc])
      have := ih cs ht
      simp only [specBuffer] at this ⊢
      simp only [List.zipWith_cons_cons, this, perturbPixel_eq_specClamp r c hh.1 hh.2]

theorem perturbPixel_zero (r : Byte) : perturbPixel r 0 = r := by
  have hr := r.isLt
  apply Fin.ext
  simp only [perturbPixel, ofUint8, toUint8, clampPix, wrapInt]
  split_ifs <;> omega

theorem zipWith_perturbPixel_zero (ref : List Byte) (n : Nat) (h : ref.length ≤ n) :
    List.zipWith perturbPixel ref (List.replicate n 0) = ref := by
  induction ref generalizing n with
  | nil => simp
  | cons r rs ih =>
    cases n with
    | zero => simp at h
    | succ m =>
      simp only [List.length_cons, Nat.add_le_add_iff_right] at h
      simp [List.replicate_succ, perturbPixel_zero, ih m h]

theorem perturbLoop_append (gene : List Int) (rest done : List Byte)
    (hd : done.length ≤ gene.length) :
    perturbLoop gene rest.length done.length (done ++ rest) =
      if done.length + rest.length ≤ gene.length then
        .ok (done ++ List.zipWith perturbPixel rest (gene.drop done.length))
      else .error .indexOutOfRange := by
  induction rest generalizing done with
  | nil => simp [perturbLoop, hd]
  | cons r rs ih =>
    simp only [List.length_cons, perturbLoop]
    have hpix : (done ++ r :: rs)[done.length]? = some r := by
      rw [List.getElem?_append_right (le_refl _)]
      simp
    rw [hpix]
    simp only
    by_cases hlt : done.length < gene.length
    · have hg : gene[done.length]? = some (gene[done.length]) := by simp [hlt]
      rw [hg]
      simp only
      have hset : (done ++ r :: rs).set done.length
          (toUint8 (clampPix (wrapInt (ofUint8 r + gene[done.length])))) =
          (done ++ [perturbPixel r gene[done.length]]) ++ rs := by
        simp [perturbPixel]
      rw [hset]
      have hlen : done.length + 1 = (done ++ [perturbPixel r gene[done.length]]).length := by simp
      rw [hlen, ih _ (by simp; omega)]
      have hdrop : gene.drop done.length = gene[done.length] :: gene.drop (done.length + 1) := by
        simp
      simp only [List.length_append, List.length_singleton, hdrop, List.zipWith_cons_cons,
        List.append_assoc, List.singleton_append]
      by_cases hle : done.length + 1 + rs.length ≤ gene.length
      · have hle2 : done.length + (rs.length + 1) ≤ gene.length := by omega
        simp [hle, hle2]
      · have hle2 : ¬ done.length + (rs.length + 1) ≤ gene.length := by omega
        simp [hle, hle2]
    · have hg : gene[done.length]? = none := by simp; omega
      rw [hg]
      have hle2 : ¬ done.length + (rs.length + 1) ≤ gene.length := by omega
      simp [hle2]

theorem perturb_eq (ref : List Byte) (gene : List Int) :
    perturb ref gene =
      if ref.length ≤ gene.length then .ok (List.zipWith perturbPixel ref gene)
      else .error .indexOutOfRange := by
  unfold perturb
  simp only [copySlice_make]
  have h := perturbLoop_append gene ref [] (by simp)
  simpa using h

theorem stopLoop_eq_perturbLoop (gene : List Int) (n i : Nat) (pixels : List Byte) :
    stopLoop gene n i pixels = perturbLoop gene n i pixels := by
  induction n generalizing i pixels with
  | zero => rfl
  | succ n ih =>
    simp only [stopLoop, perturbLoop, clampPix]
    cases pixels[i]? with
    | none => rfl
    | some pixel =>
      cases gene[i]? with
      | none => rfl
      | some c => exact ih _ _

theorem f64Shift_pow_le (fuel n : Nat) (hn : 0 < n) : 2 ^ f64Shift fuel n ≤ n := by
  induction fuel generalizing n with
  | zero => simpa [f64Shift] using hn
  | succ fuel ih =>
    simp only [f64Shift]
    split_ifs with h
    · simpa using hn
    · have h2 : 0 < n / 2 := by omega
      have := ih (n / 2) h2
      rw [Nat.add_comm, Nat.pow_succ]
      omega

theorem f64Round_of_lt (n : Nat) (h : n < 9007199254740992) : f64Round n = n := by
  have he : f64Shift n n = 0 := by
    cases n with
    | zero => rfl
    | succ m => simp [f64Shift, h]
  simp [f64Round, he, Nat.mod_one]

theorem f64Round_pos (n : Nat) (hn : 0 < n) : 0 < f64Round n := by
  have hp := f64Shift_pow_le n n hn
  have h2 : 0 < 2 ^ f64Shift n n := Nat.pow_pos (by decide)
  have hq : 0 < n / 2 ^ f64Shift n n := Nat.div_pos hp h2
  have hq1 : 0 < (n / 2 ^ f64Shift n n) * 2 ^ f64Shift n n := Nat.mul_pos hq h2
  have hq2 : 0 < (n / 2 ^ f64Shift n n + 1) * 2 ^ f64Shift n n :=
    Nat.mul_pos (Nat.succ_pos _) h2
  simp only [f64Round]
  split_ifs <;> assumption

theorem f64Round_eq_zero_iff (n : Nat) : f64Round n = 0 ↔ n = 0 := by
  constructor
  · intro h
    by_contra hne
    have := f64Round_pos n (Nat.pos_of_ne_zero hne)
    omega
  · rintro rfl
    rfl

theorem float64OfInt_natCast (n : Nat) : float64OfInt (n : Int) = ((f64Round n : Nat) : Int) := by
  simp [float64OfInt, f64RoundInt]

/-- The float64 square computed on the length `n` of the compressed output. -/
theorem float64Mul_len (n : Nat) :
    float64Mul (float64OfInt (n : Int)) (float64OfInt (n : Int)) =
      ((f64Round (f64Round n * f64Round n) : Nat) : Int) := by
  rw [float64OfInt_natCast]
  have h : ((f64Round n : Nat) : Int) * ((f64Round n : Nat) : Int) =
      ((f64Round n * f64Round n : Nat) : Int) := by push_cast; rfl
  unfold float64Mul
  rw [h, f64RoundInt]
  have hnn : ¬ ((f64Round n * f64Round n : Nat) : Int) < 0 := by
    have := Int.ofNat_nonneg (f64Round n * f64Round n)
    omega
  rw [if_neg hnn, Int.natAbs_ofNat]

theorem float64Mul_len_nonneg (n : Nat) :
    0 ≤ float64Mul (float64OfInt (n : Int)) (float64OfInt (n : Int)) := by
  rw [float64Mul_len]
  exact Int.ofNat_nonneg _

theorem float64Mul_len_eq_zero_iff (n : Nat) :
    float64Mul (float64OfInt (n : Int)) (float64OfInt (n : Int)) = 0 ↔ n = 0 := by
  rw [float64Mul_len]
  constructor
  · intro h
    have h1 : f64Round (f64Round n * f64Round n) = 0 := by exact_mod_cast h
    have h2 := (f64Round_eq_zero_iff _).1 h1
    have h3 : f64Round n = 0 := by
      rcases Nat.mul_eq_zero.1 h2 with h | h <;> exact h
    exact (f64Round_eq_zero_iff n).1 h3
  · rintro rfl
    rfl

theorem float64Mul_len_exact (n : Nat) (h : n * n < 9007199254740992) :
    float64Mul (float64OfInt (n : Int)) (float64OfInt (n : Int)) = (n : Int) * (n : Int) := by
  have hn : n < 9007199254740992 := by
    rcases Nat.eq_zero_or_pos n with h0 | h0
    · omega
    · calc n = n * 1 := by omega
        _ ≤ n * n := Nat.mul_le_mul_left n h0
        _ < 9007199254740992 := h
  rw [float64Mul_len, f64Round_of_lt n hn, f64Round_of_lt _ h]
  push_cast
  rfl

theorem score_eq (comp : List Byte → List Byte) (f : Fitness) (g : GAIntGenome) :
    f.score comp g =
      if f.img.Pix.length ≤ g.Gene.length then
        .ok { fit := { f with scores := wrapInt (f.scores + 1) }, genome := g,
              fitness := float64Mul
                (float64OfInt ((comp (List.zipWith perturbPixel f.img.Pix g.Gene)).length : Int))
                (float64OfInt ((comp (List.zipWith perturbPixel f.img.Pix g.Gene)).length : Int)) }
      else .error .indexOutOfRange := by
  unfold Fitness.score
  simp only [perturb_eq]
  split_ifs <;> rfl

theorem initPopLoop_append {G : Type} (copy : G → G) (first : G)
    (rest done : List (Option G)) :
    initPopLoop copy first rest.length done.length (done ++ rest) =
      .ok (done ++ List.replicate rest.length (some (copy first))) := by
  induction rest generalizing done with
  | nil => simp [initPopLoop]
  | cons r rs ih =>
    simp only [List.length_cons, initPopLoop, List.length_append]
    have hlt : done.length < done.length + (rs.length + 1) := by omega
    rw [if_pos hlt]
    have hset : (done ++ r :: rs).set done.length (some (copy first)) =
        (done ++ [some (copy first)]) ++ rs := by simp
    have hlen : done.length + 1 = (done ++ [some (copy first)]).length := by simp
    rw [hset, hlen, ih]
    simp [List.replicate_succ]

theorem InitPop_eq {G : Type} (copy : G → G) (first : G) (popsize : Int) :
    InitPop copy first popsize =
      if popsize < 0 ∨ maxAlloc < interfaceSize * popsize then
        .error .makesliceLenOutOfRange
      else .ok (List.replicate popsize.toNat (some (copy first))) := by
  unfold InitPop makeGenomes
  split_ifs with h
  · rfl
  · have := initPopLoop_append copy first (List.replicate popsize.toNat none) []
    simpa using this

theorem makeslice_ok_iff (popsize : Int) :
    ¬ (popsize < 0 ∨ maxAlloc < interfaceSize * popsize) ↔
      0 ≤ popsize ∧ popsize ≤ 17592186044416 := by
  unfold maxAlloc interfaceSize
  omega

theorem evalAll_counter (comp : List Byte → List Byte) (img : Gray) (gs : List GAIntGenome)
    (s : Int) (hs : 0 ≤ s) (hk : s + (gs.length : Int) < 9223372036854775808)
    (hlen : ∀ g ∈ gs, img.Pix.length ≤ g.Gene.length) :
    evalAll comp ⟨s, img⟩ gs = .ok ⟨s + (gs.length : Int), img⟩ := by
  induction gs generalizing s with
  | nil => simp [evalAll]
  | cons g gs ih =>
    have hg : img.Pix.length ≤ g.Gene.length := hlen g (by simp)
    have hl : ((g :: gs).length : Int) = (gs.length : Int) + 1 := by simp
    rw [hl] at hk
    simp only [evalAll, score_eq, if_pos hg]
    rw [wrapInt_of_inRange _ (by omega) (by omega)]
    rw [ih (s + 1) (by omega) (by omega) (fun g2 h2 => hlen g2 (by simp [h2]))]
    rw [hl]
    congr 2
    omega

theorem evalAll_append_one (comp : List Byte → List Byte) (f f2 : Fitness)
    (gs : List GAIntGenome) (g : GAIntGenome) (h : evalAll comp f gs = .ok f2) :
    evalAll comp f (gs ++ [g]) = evalAll comp f2 [g] := by
  induction gs generalizing f with
  | nil =>
    simp only [evalAll] at h
    injection h with h
    rw [← h]
    rfl
  | cons g0 gs ih =>
    simp only [List.cons_append, evalAll] at h ⊢
    cases hs : f.score comp g0 with
    | error e => rw [hs] at h; cases h
    | ok r =>
      rw [hs] at h
      exact ih r.fit h

theorem evalAll_wraps (n : Nat) (hn : (n : Int) = 9223372036854775807) :
    evalAll (fun p => p) ⟨0, ⟨[]⟩⟩ (List.replicate (n + 1) ⟨[]⟩) =
      .ok ⟨-9223372036854775808, ⟨[]⟩⟩ := by
  have h1 := evalAll_counter (fun p => p) ⟨[]⟩ (List.replicate n ⟨[]⟩) 0 (le_refl _)
    (by simp only [List.length_replicate]; omega)
    (fun g hg => by rw [(List.mem_replicate.1 hg).2]; exact le_refl _)
  rw [List.replicate_succ', evalAll_append_one _ _ _ _ _ h1]
  simp only [List.length_replicate, hn]
  decide

theorem score_identity_zero_buffer (n : Nat) :
    Fitness.score (fun p => p) ⟨0, ⟨List.replicate n 0⟩⟩ (zeroGenome n) =
      .ok { fit := ⟨wrapInt (0 + 1), ⟨List.replicate n 0⟩⟩, genome := zeroGenome n,
            fitness := float64Mul (float64OfInt (n : Int)) (float64OfInt (n : Int)) } := by
  have hle : (List.replicate n (0 : Byte)).length ≤ (zeroGenome n).Gene.length := by
    simp [zeroGenome]
  rw [score_eq]
  simp only [if_pos hle]
  simp only [zeroGenome]
  rw [zipWith_perturbPixel_zero _ _ (by simp)]
  simp only [List.length_replicate]

theorem stopPixels_eq_perturb (ref : List Byte) (gene : List Int) :
    stopPixels ref gene = perturb ref gene := by
  unfold stopPixels perturb
  exact stopLoop_eq_perturbLoop _ _ _ _

theorem stopPredicate_eq (comp : List Byte → List Byte) (fit : Fitness) (inputSize : Int)
    (Score : GAIntGenome → Int) (best : GAIntGenome) :
    stopPredicate comp fit inputSize Score best =
      if fit.img.Pix.length ≤ best.Gene.length then
        .ok { printedNum :=
                float64OfInt ((comp (List.zipWith perturbPixel fit.img.Pix best.Gene)).length : Int),
              printedDen := float64OfInt inputSize,
              stop := decide (Score best = 0) }
      else .error .indexOutOfRange := by
  unfold stopPredicate
  rw [stopPixels_eq_perturb, perturb_eq]
  split_ifs <;> rfl

theorem OptimizeUntil_never_stops {S : Type} (generation : S → S)
    (stop : S → Except GoPanic Bool) (h : ∀ s, stop s = .ok false) (fuel : Nat) (s : S) :
    OptimizeUntil generation stop fuel s = none := by
  induction fuel generalizing s with
  | zero => rfl
  | succ fuel ih =>
    simp only [OptimizeUntil, h]
    exact ih _

/-! ## C1: the fitness formula -/

/-- C1, counterexample.  First, with reference buffer `[1]` and the gene
`2^63 - 1` the spec's buffer is `[255]`, which the zero-dropping compressor
turns into one byte, so the claimed score is `1`; in the code the sum
`int(pixel) + gene` wraps to `-2^63`, the pixel becomes `0` and the score is
`0`.  Second, with a compressor that emits `134217729 = 2^27 + 1` bytes the
code returns the float64 product `18014398777917440`, not
`134217729 * 134217729 = 18014398777917441`. -/
theorem score_square_formula_counterexample :
    (specBuffer [1] [9223372036854775807] = [255] ∧
      ∃ r, Fitness.score dropZeros ⟨0, ⟨[1]⟩⟩ ⟨[9223372036854775807]⟩ = .ok r ∧
        r.fitness = 0 ∧
        r.fitness ≠ ((dropZeros (specBuffer [1] [9223372036854775807])).length : Int) *
          ((dropZeros (specBuffer [1] [9223372036854775807])).length : Int)) ∧
    (∃ r, Fitness.score (constOutput 134217729) ⟨0, ⟨[]⟩⟩ ⟨[]⟩ = .ok r ∧
        r.fitness = 18014398777917440 ∧
        r.fitness ≠ (((constOutput 134217729) (specBuffer [] [])).length : Int) *
          (((constOutput 134217729) (specBuffer [] [])).length : Int)) := by
  refine ⟨⟨by decide, _, rfl, by decide, by decide⟩, ?_⟩
  rw [score_eq]
  simp only [List.length_nil, le_refl, if_true, List.zipWith_nil_left, constOutput,
    List.length_replicate, float64Mul_len]
  refine ⟨_, rfl, ?_, ?_⟩
  · have h : f64Round (f64Round 134217729 * f64Round 134217729) = 18014398777917440 := by decide
    simp only [h]
    rfl
  · have h : f64Round (f64Round 134217729 * f64Round 134217729) = 18014398777917440 := by decide
    simp only [h]
    decide

/-- C1, amended.  For a genome as long as the reference buffer whose genes
are `int` values that do not make `int(ref[i]) + g[i]` exceed `2^63 - 1`, and
a compressed length `L` of the spec's buffer `p[i] = clamp(ref[i] + g[i], 0,
255)` with `L * L < 2^53`: the code compresses exactly `p`, `score` returns
`L * L`, and any other genome giving the same perturbed buffer gets the same
score (the sum of the genes plays no part). -/
theorem score_eq_square_of_compressed_length (comp : List Byte → List Byte) (f : Fitness)
    (g : GAIntGenome) (hlen : g.Gene.length = f.img.Pix.length)
    (hrange : ∀ rc ∈ List.zip f.img.Pix g.Gene,
      -9223372036854775808 ≤ rc.2 ∧ (rc.1.val : Int) + rc.2 < 9223372036854775808)
    (hL : (comp (specBuffer f.img.Pix g.Gene)).length *
      (comp (specBuffer f.img.Pix g.Gene)).length < 9007199254740992) :
    perturb f.img.Pix g.Gene = .ok (specBuffer f.img.Pix g.Gene) ∧
    (specBuffer f.img.Pix g.Gene).length = f.img.Pix.length ∧
    f.score comp g = .ok
      { fit := { f with scores := wrapInt (f.scores + 1) }, genome := g,
        fitness := ((comp (specBuffer f.img.Pix g.Gene)).length : Int) *
          ((comp (specBuffer f.img.Pix g.Gene)).length : Int) } ∧
    ∀ g2 : GAIntGenome, perturb f.img.Pix g2.Gene = perturb f.img.Pix g.Gene →
      ∃ r2, f.score comp g2 = .ok r2 ∧
        r2.fitness = ((comp (specBuffer f.img.Pix g.Gene)).length : Int) *
          ((comp (specBuffer f.img.Pix g.Gene)).length : Int) := by
  have hle : f.img.Pix.length ≤ g.Gene.length := by omega
  have hz := zipWith_perturbPixel_eq_specBuffer f.img.Pix g.Gene hrange
  have hp : perturb f.img.Pix g.Gene = .ok (specBuffer f.img.Pix g.Gene) := by
    rw [perturb_eq, if_pos hle, hz]
  refine ⟨hp, ?_, ?_, ?_⟩
  · simp [specBuffer, hlen]
  · rw [score_eq, if_pos hle, hz, float64Mul_len_exact _ hL]
  · intro g2 h2
    rw [hp] at h2
    unfold Fitness.score
    simp only [h2]
    refine ⟨_, rfl, ?_⟩
    exact float64Mul_len_exact _ hL

/-- C1, amended claim at a concrete input: reference buffer `[100, 250, 3]`,
genes `[5, 10, -7]`, the identity as compressor. -/
theorem score_eq_square_of_compressed_length_witness :
    specBuffer [100, 250, 3] [5, 10, -7] = [105, 255, 0] ∧
    Fitness.score (fun p => p) ⟨0, ⟨[100, 250, 3]⟩⟩ ⟨[5, 10, -7]⟩ =
      .ok ⟨⟨1, ⟨[100, 250, 3]⟩⟩, ⟨[5, 10, -7]⟩, 9⟩ :=
  ⟨by decide,
   (score_eq_square_of_compressed_length (fun p => p) ⟨0, ⟨[100, 250, 3]⟩⟩ ⟨[5, 10, -7]⟩
      (by decide) (by decide) (by decide)).2.2.1⟩

/-! ## C2: the initial population -/

/-- C2, counterexample.  For the population size `2^44 + 1`, which is not
negative, `InitPop` does not return a population: the `2^48 + 16` bytes that
`make` is asked for exceed `maxAlloc` and `make` panics. -/
theorem InitPop_large_popsize_counterexample :
    (0 : Int) ≤ 17592186044417 ∧
    InitPop GAIntGenome.Copy (zeroGenome 16) 17592186044417 =
      .error GoPanic.makesliceLenOutOfRange := by
  refine ⟨by decide, ?_⟩
  rw [InitPop_eq, if_pos (by decide)]

/-- C2, amended.  For a population size `popsize` with `0 <= popsize <= 2^44`
(the largest length `make` accepts for a slice of interface values),
`InitPop(first, popsize)` returns without panic a population of exactly
`popsize` entries, each of them the non-nil genome `first.Copy()`; hence, for
a `Copy` that keeps the gene values, each has the gene values of the seed. -/
theorem InitPop_returns_copies {G : Type} (copy : G → G) (first : G) (popsize : Int)
    (h : 0 ≤ popsize) (hmax : popsize ≤ 17592186044416) :
    ∃ pop, InitPop copy first popsize = .ok pop ∧
      (pop.length : Int) = popsize ∧
      (∀ p ∈ pop, p = some (copy first)) ∧
      ∀ genes : G → List Int, genes (copy first) = genes first →
        ∀ p ∈ pop, p.map genes = some (genes first) := by
  have hnot := (makeslice_ok_iff popsize).2 ⟨h, hmax⟩
  refine ⟨List.replicate popsize.toNat (some (copy first)), ?_, ?_, ?_, ?_⟩
  · rw [InitPop_eq, if_neg hnot]
  · simp only [List.length_replicate]
    omega
  · intro p hp
    exact (List.mem_replicate.1 hp).2
  · intro genes hg p hp
    rw [(List.mem_replicate.1 hp).2]
    simp [hg]

/-- C2, amended claim at the input of the spec's scenario: population size 10
and an all-zero seed genome of length 16. -/
theorem InitPop_returns_copies_witness :
    (0 : Int) ≤ 10 ∧ (10 : Int) ≤ 17592186044416 ∧
    InitPop GAIntGenome.Copy (zeroGenome 16) 10 =
      .ok (List.replicate 10 (some (zeroGenome 16))) ∧
    ∃ pop, InitPop GAIntGenome.Copy (zeroGenome 16) 10 = .ok pop ∧
      (pop.length : Int) = 10 ∧
      (∀ p ∈ pop, p = some (GAIntGenome.Copy (zeroGenome 16))) ∧
      ∀ genes : GAIntGenome → List Int,
        genes (GAIntGenome.Copy (zeroGenome 16)) = genes (zeroGenome 16) →
        ∀ p ∈ pop, p.map genes = some (genes (zeroGenome 16)) :=
  ⟨by decide, by decide, by decide,
   InitPop_returns_copies GAIntGenome.Copy (zeroGenome 16) 10 (by decide) (by decide)⟩

/-! ## C3: genomes of another length than the reference buffer -/

/-- C3, counterexample.  With reference buffer `[7]` and the longer genome
`[1, 2]` the call does not fail: it returns the fitness `1` of the buffer
`[8]` under the identity compressor. -/
theorem score_longer_genome_counterexample :
    ([1, 2] : List Int).length ≠ ([7] : List Byte).length ∧
    Fitness.score (fun p => p) ⟨0, ⟨[7]⟩⟩ ⟨[1, 2]⟩ = .ok ⟨⟨1, ⟨[7]⟩⟩, ⟨[1, 2]⟩, 1⟩ := by
  decide

/-- C3, amended.  `score` fails exactly when the genome is shorter than the
reference buffer, and the failure is the index-out-of-range panic of
`g.Gene[i]`; a genome at least as long as the buffer gets a fitness value,
the one of its first `len(ref)` genes (the surplus genes have no effect on
the result). -/
theorem score_fails_iff_genome_shorter (comp : List Byte → List Byte) (f : Fitness)
    (g : GAIntGenome) :
    ((∃ e, f.score comp g = .error e) ↔ g.Gene.length < f.img.Pix.length) ∧
    (∀ e, f.score comp g = .error e → e = GoPanic.indexOutOfRange) ∧
    ((∃ r, f.score comp g = .ok r) ↔ f.img.Pix.length ≤ g.Gene.length) ∧
    (∀ r, f.score comp g = .ok r →
      ∃ r2, f.score comp ⟨g.Gene.take f.img.Pix.length⟩ = .ok r2 ∧ r2.fitness = r.fitness) := by
  rw [score_eq]
  by_cases hle : f.img.Pix.length ≤ g.Gene.length
  · rw [if_pos hle]
    refine ⟨?_, ?_, ?_, ?_⟩
    · constructor
      · rintro ⟨e, he⟩
        cases he
      · intro h
        omega
    · intro e he
      cases he
    · constructor
      · intro _
        exact hle
      · intro _
        exact ⟨_, rfl⟩
    · intro r hr
      rw [score_eq]
      have hlen : f.img.Pix.length ≤ (List.take f.img.Pix.length g.Gene).length := by
        simp [hle]
      rw [if_pos hlen]
      refine ⟨_, rfl, ?_⟩
      have hz : List.zipWith perturbPixel f.img.Pix (List.take f.img.Pix.length g.Gene) =
          List.zipWith perturbPixel f.img.Pix g.Gene := by
        have h1 : (List.zipWith perturbPixel f.img.Pix g.Gene).take f.img.Pix.length =
            List.zipWith perturbPixel (f.img.Pix.take f.img.Pix.length)
              (g.Gene.take f.img.Pix.length) := List.take_zipWith
        rw [List.take_length] at h1
        rw [← h1]
        apply List.take_of_length_le
        simp
      injection hr with hr
      rw [← hr, hz]
  · rw [if_neg hle]
    refine ⟨?_, ?_, ?_, ?_⟩
    · constructor
      · intro _
        omega
      · intro _
        exact ⟨_, rfl⟩
    · intro e he
      injection he with he
      exact he.symm
    · constructor
      · rintro ⟨r, hr⟩
        cases hr
      · intro h
        omega
    · intro r hr
      cases hr

/-! ## C4: a population size of zero -/

/-- C4, counterexample.  `InitPop(seed, 0)` does not fail: it returns the
empty population. -/
theorem InitPop_zero_counterexample :
    InitPop GAIntGenome.Copy (zeroGenome 16) 0 = .ok [] := by
  decide

/-- C4, amended.  For every seed genome `InitPop(seed, 0)` returns the empty
population without error; so a population that `InitPop` returns is empty
exactly when the population size asked for is zero. -/
theorem InitPop_zero_returns_empty {G : Type} (copy : G → G) (first : G) :
    InitPop copy first 0 = .ok [] ∧
    ∀ (popsize : Int) (pop : List (Option G)),
      InitPop copy first popsize = .ok pop → (pop = [] ↔ popsize = 0) := by
  refine ⟨?_, ?_⟩
  · rw [InitPop_eq, if_neg (by decide)]
    rfl
  · intro popsize pop hpop
    rw [InitPop_eq] at hpop
    split_ifs at hpop with hbad
    have hrange := (makeslice_ok_iff popsize).1 hbad
    injection hpop with hpop
    rw [← hpop]
    constructor
    · intro hnil
      have hl := congrArg List.length hnil
      simp only [List.length_replicate, List.length_nil] at hl
      omega
    · rintro rfl
      rfl

/-! ## C5: determinism -/

/-- C5.  For a genome as long as the reference buffer, `score` returns the
same fitness whatever the value of the counter `f.scores` when it is called;
in particular a second call, made on the evaluator the first call left,
returns the value of the first. -/
theorem score_deterministic (comp : List Byte → List Byte) (img : Gray) (g : GAIntGenome)
    (s1 s2 : Int) (hlen : g.Gene.length = img.Pix.length) :
    ∃ r1 r2, Fitness.score comp ⟨s1, img⟩ g = .ok r1 ∧
      Fitness.score comp ⟨s2, img⟩ g = .ok r2 ∧
      r1.fitness = r2.fitness ∧
      ∃ r3, Fitness.score comp r1.fit r1.genome = .ok r3 ∧ r3.fitness = r1.fitness := by
  have hle : img.Pix.length ≤ g.Gene.length := by omega
  have h1 := score_eq comp ⟨s1, img⟩ g
  have h2 := score_eq comp ⟨s2, img⟩ g
  have h3 := score_eq comp ⟨wrapInt (s1 + 1), img⟩ g
  simp only [if_pos hle] at h1 h2 h3
  exact ⟨_, _, h1, h2, rfl, _, h3, rfl⟩

/-- C5 at a concrete input: counters `0` and `41`, reference buffer
`[100, 250, 3]`, genes `[5, 10, -7]`, the identity as compressor. -/
theorem score_deterministic_witness :
    ([5, 10, -7] : List Int).length = ([100, 250, 3] : List Byte).length ∧
    ∃ r1 r2, Fitness.score (fun p => p) ⟨0, ⟨[100, 250, 3]⟩⟩ ⟨[5, 10, -7]⟩ = .ok r1 ∧
      Fitness.score (fun p => p) ⟨41, ⟨[100, 250, 3]⟩⟩ ⟨[5, 10, -7]⟩ = .ok r2 ∧
      r1.fitness = r2.fitness ∧
      ∃ r3, Fitness.score (fun p => p) r1.fit r1.genome = .ok r3 ∧ r3.fitness = r1.fitness :=
  ⟨by decide,
   score_deterministic (fun p => p) ⟨[100, 250, 3]⟩ ⟨[5, 10, -7]⟩ 0 41 (by decide)⟩

/-! ## C6: no failure on a genome of matching length -/

/-- C6.  For a genome as long as the reference buffer, whatever integers its
genes are, `score` returns without panic a fitness that is not negative; the
buffer it compresses has the length of the reference buffer, every read
`g.Gene[i]` finds a gene, and every clamped value lies in `[0, 255]` and is
the value of the byte that `uint8` stores. -/
theorem score_total_nonneg (comp : List Byte → List Byte) (f : Fitness) (g : GAIntGenome)
    (hlen : g.Gene.length = f.img.Pix.length) :
    ∃ (r : ScoreResult) (pixels : List Byte), f.score comp g = .ok r ∧ 0 ≤ r.fitness ∧
      perturb f.img.Pix g.Gene = .ok pixels ∧
      pixels.length = f.img.Pix.length ∧
      ∀ (i : Nat) (pixel : Byte), f.img.Pix[i]? = some pixel →
        ∃ c, g.Gene[i]? = some c ∧
          0 ≤ clampPix (wrapInt (ofUint8 pixel + c)) ∧
          clampPix (wrapInt (ofUint8 pixel + c)) ≤ 255 ∧
          pixels[i]? = some (toUint8 (clampPix (wrapInt (ofUint8 pixel + c)))) ∧
          ofUint8 (toUint8 (clampPix (wrapInt (ofUint8 pixel + c)))) =
            clampPix (wrapInt (ofUint8 pixel + c)) := by
  have hle : f.img.Pix.length ≤ g.Gene.length := by omega
  refine ⟨_, List.zipWith perturbPixel f.img.Pix g.Gene, by rw [score_eq, if_pos hle],
    float64Mul_len_nonneg _, by rw [perturb_eq, if_pos hle], by simp [hlen], ?_⟩
  intro i pixel hpix
  have hi : i < f.img.Pix.length := by
    by_contra hcon
    rw [List.getElem?_eq_none (by omega)] at hpix
    cases hpix
  have hig : i < g.Gene.length := by omega
  refine ⟨g.Gene[i], by simp [hig], (clampPix_bounds _).1, (clampPix_bounds _).2, ?_,
    ofUint8_toUint8_clampPix _⟩
  have hg : g.Gene[i]? = some g.Gene[i] := by simp [hig]
  simp [List.getElem?_zipWith, hpix, hg, perturbPixel]

/-- C6 at a concrete input with genes at both ends of the `int` range. -/
theorem score_total_nonneg_witness :
    ([9223372036854775807, -9223372036854775808] : List Int).length =
      ([200, 3] : List Byte).length ∧
    Fitness.score (fun p => p) ⟨0, ⟨[200, 3]⟩⟩
        ⟨[9223372036854775807, -9223372036854775808]⟩ =
      .ok ⟨⟨1, ⟨[200, 3]⟩⟩, ⟨[9223372036854775807, -9223372036854775808]⟩, 4⟩ ∧
    ∃ (r : ScoreResult) (pixels : List Byte), Fitness.score (fun p => p) ⟨0, ⟨[200, 3]⟩⟩
        ⟨[9223372036854775807, -9223372036854775808]⟩ = .ok r ∧ 0 ≤ r.fitness ∧
      perturb [200, 3] [9223372036854775807, -9223372036854775808] = .ok pixels ∧
      pixels.length = ([200, 3] : List Byte).length ∧
      ∀ (i : Nat) (pixel : Byte), ([200, 3] : List Byte)[i]? = some pixel →
        ∃ c, ([9223372036854775807, -9223372036854775808] : List Int)[i]? = some c ∧
          0 ≤ clampPix (wrapInt (ofUint8 pixel + c)) ∧
          clampPix (wrapInt (ofUint8 pixel + c)) ≤ 255 ∧
          pixels[i]? = some (toUint8 (clampPix (wrapInt (ofUint8 pixel + c)))) ∧
          ofUint8 (toUint8 (clampPix (wrapInt (ofUint8 pixel + c)))) =
            clampPix (wrapInt (ofUint8 pixel + c)) :=
  ⟨by decide, by decide,
   score_total_nonneg (fun p => p) ⟨0, ⟨[200, 3]⟩⟩
     ⟨[9223372036854775807, -9223372036854775808]⟩ (by decide)⟩

/-! ## C7: the evaluation counter -/

/-- C7, counterexample.  On an evaluator whose counter holds the largest
`int`, `2^63 - 1`, a successful call leaves the counter at `-2^63`, not one
higher; accordingly `2^63` evaluations in a row from a fresh evaluator leave
the counter at `-2^63`, not at `2^63`. -/
theorem score_counter_counterexample :
    (∃ r, Fitness.score (fun p => p) ⟨9223372036854775807, ⟨[7]⟩⟩ ⟨[1]⟩ = .ok r ∧
      r.fit.scores = -9223372036854775808 ∧
      r.fit.scores ≠ 9223372036854775807 + 1) ∧
    (List.replicate (9223372036854775807 + 1) (⟨[]⟩ : GAIntGenome)).length =
      9223372036854775808 ∧
    evalAll (fun p => p) ⟨0, ⟨[]⟩⟩ (List.replicate (9223372036854775807 + 1) ⟨[]⟩) =
      .ok ⟨-9223372036854775808, ⟨[]⟩⟩ :=
  ⟨⟨_, rfl, by decide, by decide⟩, List.length_replicate _ _,
   evalAll_wraps 9223372036854775807 rfl⟩

/-- C7, amended.  A successful call of `score` on an evaluator whose counter
is an `int` below `2^63 - 1` increases the counter by exactly one; so `k`
evaluations in a row, `k < 2^63`, of genomes at least as long as the
reference buffer, started on a fresh evaluator (counter `0`), all succeed and
leave the counter at `k`. -/
theorem score_increments_counter (comp : List Byte → List Byte) (f : Fitness)
    (g : GAIntGenome) (r : ScoreResult)
    (hlo : -9223372036854775808 ≤ f.scores) (hhi : f.scores < 9223372036854775807)
    (h : f.score comp g = .ok r) :
    r.fit.scores = f.scores + 1 ∧
    ∀ gs : List GAIntGenome, (gs.length : Int) < 9223372036854775808 →
      (∀ g2 ∈ gs, f.img.Pix.length ≤ g2.Gene.length) →
      evalAll comp ⟨0, f.img⟩ gs = .ok ⟨(gs.length : Int), f.img⟩ := by
  constructor
  · rw [score_eq] at h
    split_ifs at h
    injection h with h
    rw [← h]
    exact wrapInt_of_inRange _ (by omega) (by omega)
  · intro gs hk hlen
    have := evalAll_counter comp f.img gs 0 (le_refl _) (by omega) hlen
    simpa using this

/-- C7, amended claim at a concrete input: one call from counter `5`, and
three calls in a row from a fresh evaluator. -/
theorem score_increments_counter_witness :
    Fitness.score (fun p => p) ⟨5, ⟨[7]⟩⟩ ⟨[1]⟩ = .ok ⟨⟨6, ⟨[7]⟩⟩, ⟨[1]⟩, 1⟩ ∧
    evalAll (fun p => p) ⟨0, ⟨[7]⟩⟩ [⟨[1]⟩, ⟨[-9]⟩, ⟨[300]⟩] = .ok ⟨3, ⟨[7]⟩⟩ :=
  ⟨by decide,
   (score_increments_counter (fun p => p) ⟨5, ⟨[7]⟩⟩ ⟨[1]⟩ ⟨⟨6, ⟨[7]⟩⟩, ⟨[1]⟩, 1⟩
      (by decide) (by decide) (by decide)).2 [⟨[1]⟩, ⟨[-9]⟩, ⟨[300]⟩] (by decide) (by decide)⟩

/-! ## C8: the reference buffer and the genome are left as they were -/

/-- C8.  For a genome as long as the reference buffer, `score` returns and
leaves the image (with its pixels) and the genome (with its genes) exactly as
they were before the call: of the evaluator only the counter `scores`
differs. -/
theorem score_frame (comp : List Byte → List Byte) (f : Fitness) (g : GAIntGenome)
    (hlen : g.Gene.length = f.img.Pix.length) :
    ∃ r, f.score comp g = .ok r ∧
      r.fit.img.Pix = f.img.Pix ∧ r.genome.Gene = g.Gene ∧
      r.fit = { f with scores := r.fit.scores } := by
  have hle : f.img.Pix.length ≤ g.Gene.length := by omega
  have h := score_eq comp f g
  rw [if_pos hle] at h
  exact ⟨_, h, rfl, rfl, rfl⟩

/-- C8 at a concrete input. -/
theorem score_frame_witness :
    ([5, 10, -7] : List Int).length = ([100, 250, 3] : List Byte).length ∧
    ∃ r, Fitness.score (fun p => p) ⟨0, ⟨[100, 250, 3]⟩⟩ ⟨[5, 10, -7]⟩ = .ok r ∧
      r.fit.img.Pix = [100, 250, 3] ∧ r.genome.Gene = [5, 10, -7] ∧
      r.fit = { (⟨0, ⟨[100, 250, 3]⟩⟩ : Fitness) with scores := r.fit.scores } :=
  ⟨by decide, score_frame (fun p => p) ⟨0, ⟨[100, 250, 3]⟩⟩ ⟨[5, 10, -7]⟩ (by decide)⟩

/-! ## C9: the all-zero genome -/

/-- C9, counterexample.  With a compressor that emits `134217729 = 2^27 + 1`
bytes for the reference buffer `[100, 100, 100, 100]`, the all-zero genome
gets the float64 product `18014398777917440`, not the square
`18014398777917441` of the compressed length; and with the identity as
compressor on a reference buffer of `134217729` zero bytes the fitness is not
`N * N` either. -/
theorem zero_genome_fitness_counterexample :
    (∃ r, Fitness.score (constOutput 134217729) ⟨0, ⟨[100, 100, 100, 100]⟩⟩ (zeroGenome 4)
        = .ok r ∧
      r.fitness = 18014398777917440 ∧
      r.fitness ≠ ((constOutput 134217729 [100, 100, 100, 100]).length : Int) *
        ((constOutput 134217729 [100, 100, 100, 100]).length : Int)) ∧
    (∃ r, Fitness.score (fun p => p) ⟨0, ⟨List.replicate 134217729 0⟩⟩ (zeroGenome 134217729)
        = .ok r ∧
      r.fitness ≠ (134217729 : Int) * 134217729) := by
  have hround : f64Round (f64Round 134217729 * f64Round 134217729) = 18014398777917440 := by
    decide
  constructor
  · have h := score_eq (constOutput 134217729) ⟨0, ⟨[100, 100, 100, 100]⟩⟩ (zeroGenome 4)
    rw [if_pos (by decide)] at h
    refine ⟨_, h, ?_, ?_⟩
    · simp only [constOutput, List.length_replicate, float64Mul_len, hround]
      rfl
    · simp only [constOutput, List.length_replicate, float64Mul_len, hround]
      decide
  · refine ⟨_, score_identity_zero_buffer 134217729, ?_⟩
    show float64Mul (float64OfInt ((134217729 : Nat) : Int))
      (float64OfInt ((134217729 : Nat) : Int)) ≠ (134217729 : Int) * 134217729
    rw [float64Mul_len, hround]
    decide

/-- C9, amended.  The all-zero genome of the reference buffer's length leaves
the buffer as it is, so the compressor sees the reference buffer itself; when
the compressed length `L` of the reference buffer has `L * L < 2^53` the
fitness is `L * L`, and with a compressor whose output is as long as its
input it is `N * N`. -/
theorem zero_genome_fitness (comp : List Byte → List Byte) (f : Fitness)
    (hL : (comp f.img.Pix).length * (comp f.img.Pix).length < 9007199254740992) :
    perturb f.img.Pix (zeroGenome f.img.Pix.length).Gene = .ok f.img.Pix ∧
    f.score comp (zeroGenome f.img.Pix.length) = .ok
      { fit := { f with scores := wrapInt (f.scores + 1) },
        genome := zeroGenome f.img.Pix.length,
        fitness := ((comp f.img.Pix).length : Int) * ((comp f.img.Pix).length : Int) } ∧
    ((comp f.img.Pix).length = f.img.Pix.length →
      ∃ r, f.score comp (zeroGenome f.img.Pix.length) = .ok r ∧
        r.fitness = (f.img.Pix.length : Int) * (f.img.Pix.length : Int)) := by
  have hle : f.img.Pix.length ≤ (zeroGenome f.img.Pix.length).Gene.length := by
    simp [zeroGenome]
  have hz : List.zipWith perturbPixel f.img.Pix (zeroGenome f.img.Pix.length).Gene =
      f.img.Pix := zipWith_perturbPixel_zero _ _ (le_refl _)
  have hs : f.score comp (zeroGenome f.img.Pix.length) = .ok
      { fit := { f with scores := wrapInt (f.scores + 1) },
        genome := zeroGenome f.img.Pix.length,
        fitness := ((comp f.img.Pix).length : Int) * ((comp f.img.Pix).length : Int) } := by
    rw [score_eq, if_pos hle, hz, float64Mul_len_exact _ hL]
  refine ⟨by rw [perturb_eq, if_pos hle, hz], hs, ?_⟩
  intro hN
  refine ⟨_, hs, ?_⟩
  simp only [hN]

/-- C9, amended claim at the input of the spec's scenario: reference buffer
`[100, 100, 100, 100]`, all-zero seed, identity compressor, fitness `16`. -/
theorem zero_genome_fitness_witness :
    Fitness.score (fun p => p) ⟨0, ⟨[100, 100, 100, 100]⟩⟩ (zeroGenome 4) =
      .ok ⟨⟨1, ⟨[100, 100, 100, 100]⟩⟩, zeroGenome 4, 16⟩ :=
  (zero_genome_fitness (fun p => p) ⟨0, ⟨[100, 100, 100, 100]⟩⟩ (by decide)).2.1

/-! ## C10: the stopping predicate -/

/-- C10.  Let `Score` return for every genome the fitness that `score`
computes for it.  Then (1) the buffer the predicate rebuilds is the one
`score` compresses; (2) for a best genome as long as the reference buffer the
predicate returns, its result is true exactly when `best.Score()` is `0`, the
score is `0` exactly when the compressor's output for the perturbed buffer is
empty, and the numerator of the printed ratio is the compressed length of
that same buffer; (3) with a compressor that emits at least one byte on every
input the predicate is false for every such genome, and the loop
`OptimizeUntil` is still running after any number of generations. -/
theorem stopPredicate_true_iff_output_empty (comp : List Byte → List Byte) (fit : Fitness)
    (inputSize : Int) (Score : GAIntGenome → Int)
    (hScore : ∀ g r, fit.score comp g = .ok r → Score g = r.fitness) :
    (∀ g : GAIntGenome, stopPixels fit.img.Pix g.Gene = perturb fit.img.Pix g.Gene) ∧
    (∀ best : GAIntGenome, best.Gene.length = fit.img.Pix.length →
      ∃ (pixels : List Byte) (r : ScoreResult) (res : StopResult),
        perturb fit.img.Pix best.Gene = .ok pixels ∧
        fit.score comp best = .ok r ∧
        stopPredicate comp fit inputSize Score best = .ok res ∧
        (res.stop = true ↔ Score best = 0) ∧
        (r.fitness = 0 ↔ comp pixels = []) ∧
        (res.stop = true ↔ comp pixels = []) ∧
        res.printedNum = float64OfInt ((comp pixels).length : Int)) ∧
    ((∀ p, comp p ≠ []) →
      (∀ best : GAIntGenome, best.Gene.length = fit.img.Pix.length →
        ∃ res, stopPredicate comp fit inputSize Score best = .ok res ∧ res.stop = false) ∧
      ∀ (S : Type) (generation : S → S) (Best : S → GAIntGenome),
        (∀ s, (Best s).Gene.length = fit.img.Pix.length) →
        ∀ (fuel : Nat) (s : S),
          OptimizeUntil generation
            (fun s => (stopPredicate comp fit inputSize Score (Best s)).map (fun res => res.stop))
            fuel s = none) := by
  have key : ∀ best : GAIntGenome, best.Gene.length = fit.img.Pix.length →
      (Score best = 0 ↔ comp (List.zipWith perturbPixel fit.img.Pix best.Gene) = []) := by
    intro best hlen
    have hle : fit.img.Pix.length ≤ best.Gene.length := by omega
    have hs := score_eq comp fit best
    rw [if_pos hle] at hs
    rw [hScore best _ hs]
    simp only [float64Mul_len_eq_zero_iff, List.length_eq_zero]
  refine ⟨fun g => stopPixels_eq_perturb _ _, ?_, ?_⟩
  · intro best hlen
    have hle : fit.img.Pix.length ≤ best.Gene.length := by omega
    have hs := score_eq comp fit best
    have hp := stopPredicate_eq comp fit inputSize Score best
    rw [if_pos hle] at hs hp
    refine ⟨_, _, _, by rw [perturb_eq, if_pos hle], hs, hp, ?_, ?_, ?_, rfl⟩
    · simp
    · simp only [float64Mul_len_eq_zero_iff, List.length_eq_zero]
    · simp only [decide_eq_true_eq]
      exact key best hlen
  · intro hne
    have hfalse : ∀ best : GAIntGenome, best.Gene.length = fit.img.Pix.length →
        stopPredicate comp fit inputSize Score best = .ok
          { printedNum :=
              float64OfInt ((comp (List.zipWith perturbPixel fit.img.Pix best.Gene)).length : Int),
            printedDen := float64OfInt inputSize,
            stop := false } := by
      intro best hlen
      have hle : fit.img.Pix.length ≤ best.Gene.length := by omega
      have hp := stopPredicate_eq comp fit inputSize Score best
      rw [if_pos hle] at hp
      rw [hp]
      have hnz : ¬ Score best = 0 := fun h0 => hne _ ((key best hlen).1 h0)
      simp [hnz]
    refine ⟨fun best hlen => ⟨_, hfalse best hlen, rfl⟩, ?_⟩
    intro S generation Best hBest fuel s
    apply OptimizeUntil_never_stops
    intro s2
    rw [hfalse (Best s2) (hBest s2)]
    rfl

/-- C10 at a concrete input: reference buffer `[100, 250, 3]`, a compressor
that puts a one-byte header before its input, best genome `[5, 10, -7]`; the
predicate prints the operands `4` and `4` and returns false, and a search
whose best genome stays the same is still running after 1000 generations. -/
theorem stopPredicate_true_iff_output_empty_witness :
    stopPredicate withHeader ⟨0, ⟨[100, 250, 3]⟩⟩ 4
        (scoreOf withHeader ⟨0, ⟨[100, 250, 3]⟩⟩) ⟨[5, 10, -7]⟩ = .ok ⟨4, 4, false⟩ ∧
    OptimizeUntil (fun n : Nat => n + 1)
        (fun _ => (stopPredicate withHeader ⟨0, ⟨[100, 250, 3]⟩⟩ 4
          (scoreOf withHeader ⟨0, ⟨[100, 250, 3]⟩⟩) ⟨[5, 10, -7]⟩).map (fun res => res.stop))
        1000 0 = none :=
  ⟨by decide,
   ((stopPredicate_true_iff_output_empty withHeader ⟨0, ⟨[100, 250, 3]⟩⟩ 4
      (scoreOf withHeader ⟨0, ⟨[100, 250, 3]⟩⟩)
      (fun g r h => by simp [scoreOf, h])).2.2 (fun p => by simp [withHeader])).2
      Nat (fun n => n + 1) (fun _ => ⟨[5, 10, -7]⟩) (fun _ => rfl) 1000 0⟩

end GAPress
